import Mathlib

/-!
Verification development for the Civic-Sight electoral-data extraction
pipeline (src/pdf_parser.py).

The pipeline extracts four electoral fields (constituency name, total
electors, valid votes polled, NOTA votes) from OCR text via ordered regex
pattern lists, batches over a folder of PDF files, and exports the records
to a spreadsheet table.

The embedding below models the Python code faithfully:
- `clean_list` models the preprocessing re.sub of whitespace-runs to a
  single space applied to text.strip().
- `Re` / `ends` / `search` model the Python regular-expression constructs
  actually used by the 20 patterns (case-insensitive literals, character
  classes, greedy and lazy repetition, optional groups, alternation), with
  `ends` enumerating candidate match end-positions in exactly Python's
  backtracking preference order and `search` performing leftmost search.
  Each pattern has a single capture group; `search` returns its span.
- `extract_data_from_text`, `process_all_pdfs`, `save_to_excel` mirror the
  corresponding methods of class PDFParser.  Filesystem and service
  effects are represented by explicit data: the PDF folder is an
  `Option (List String)` of filenames (`none` = folder missing) and the
  text provider is a function from filename to extracted text (the code
  returns the empty string when text extraction fails).
Character classes use ASCII semantics; all source documents and patterns
are ASCII.
-/

set_option maxRecDepth 100000

namespace CivicSight

/-! ### Character classes of the regexes in pdf_parser.py (ASCII) -/

/-- Python regex class for whitespace (ASCII part): space, tab, LF, CR, VT, FF. -/
def isWsp (c : Char) : Bool :=
  c = ' ' || c = '\t' || c = '\n' || c = '\r' || c = Char.ofNat 11 || c = Char.ofNat 12

/-- The class of a colon or whitespace. -/
def isColonWs (c : Char) : Bool := c = ':' || isWsp c

/-- ASCII letter: the class [A-Za-z]; also [A-Z] under re.IGNORECASE. -/
def isLetter (c : Char) : Bool := ('A' ≤ c && c ≤ 'Z') || ('a' ≤ c && c ≤ 'z')

/-- The class of a letter or whitespace. -/
def isLetterWs (c : Char) : Bool := isLetter c || isWsp c

/-- The class of a digit or a comma. -/
def isDigitComma (c : Char) : Bool := c.isDigit || c == ','

/-- The class of a single or double quote character. -/
def isQuoteCh (c : Char) : Bool := c.toNat = 39 || c = '"'

/-- The 26 uppercase/lowercase ASCII letter pairs. -/
def lowerPairs : List (Char × Char) :=
  [('A','a'), ('B','b'), ('C','c'), ('D','d'), ('E','e'), ('F','f'), ('G','g'),
   ('H','h'), ('I','i'), ('J','j'), ('K','k'), ('L','l'), ('M','m'), ('N','n'),
   ('O','o'), ('P','p'), ('Q','q'), ('R','r'), ('S','s'), ('T','t'), ('U','u'),
   ('V','v'), ('W','w'), ('X','x'), ('Y','y'), ('Z','z')]

/-- ASCII lowercasing, modelling str.lower and re.IGNORECASE comparison. -/
def asciiLower (c : Char) : Char :=
  match lowerPairs.find? (fun p => p.1 = c) with
  | some p => p.2
  | none => c

/-! ### Whitespace normalisation: re.sub of whitespace-runs applied to text.strip() -/

/-- str.strip(): drop leading and trailing whitespace. -/
def stripWs (l : List Char) : List Char :=
  ((l.dropWhile isWsp).reverse.dropWhile isWsp).reverse

/-- Merge one whitespace character into an already collapsed tail: it
becomes a single space unless the tail already starts with one. -/
def spacePrepend : List Char → List Char
  | [] => [' ']
  | d :: t => if d = ' ' then d :: t else ' ' :: d :: t

/-- Replace every maximal run of whitespace characters by a single space. -/
def collapseWs : List Char → List Char
  | [] => []
  | c :: rest =>
    if isWsp c then spacePrepend (collapseWs rest) else c :: collapseWs rest

/-- clean_text of extract_data_from_text: re.sub collapsing whitespace runs
to single spaces, applied to text.strip(). -/
def clean_list (text : String) : List Char := collapseWs (stripWs text.data)

/-! ### Regular expressions as used by the 20 patterns -/

/-- The regex constructs appearing in the patterns of pdf_parser.py.
Repetitions only ever apply to character classes in those patterns. -/
inductive Re where
  | eps : Re
  /-- literal word, matched case-insensitively (re.IGNORECASE) -/
  | lit : List Char → Re
  /-- a single character of a class -/
  | one : (Char → Bool) → Re
  /-- class repeated with plus, greedy -/
  | plusG : (Char → Bool) → Re
  /-- class repeated with plus, lazy -/
  | plusL : (Char → Bool) → Re
  /-- class repeated with star, greedy -/
  | starG : (Char → Bool) → Re
  /-- class repeated between m and M times, greedy -/
  | repG : (Char → Bool) → Nat → Nat → Re
  /-- optional group, greedy -/
  | opt : Re → Re
  | alt : Re → Re → Re
  | cat : Re → Re → Re

/-- Length of the maximal class run at the front of a list. -/
def runLen (p : Char → Bool) : List Char → Nat
  | [] => 0
  | c :: rest => if p c then runLen p rest + 1 else 0

/-- Case-insensitive literal match at the front of a list. -/
def matchesLower : List Char → List Char → Bool
  | [], _ => true
  | _ :: _, [] => false
  | c :: w, d :: t => (asciiLower d = asciiLower c) && matchesLower w t

/-- End positions of matches of a regex at position i of s, enumerated in
Python's backtracking preference order (greedy: longest first; lazy:
shortest first; alternation and optional group: left / present first). -/
def ends : Re → List Char → Nat → List Nat
  | .eps, _, i => [i]
  | .lit w, s, i => if matchesLower w (s.drop i) then [i + w.length] else []
  | .one p, s, i =>
    match s.drop i with
    | [] => []
    | c :: _ => if p c then [i + 1] else []
  | .plusG p, s, i =>
    let n := runLen p (s.drop i)
    (List.range n).map (fun t => i + n - t)
  | .plusL p, s, i =>
    let n := runLen p (s.drop i)
    (List.range n).map (fun t => i + 1 + t)
  | .starG p, s, i =>
    let n := runLen p (s.drop i)
    (List.range (n + 1)).map (fun t => i + n - t)
  | .repG p m M, s, i =>
    let n := min (runLen p (s.drop i)) M
    if n < m then [] else (List.range (n + 1 - m)).map (fun t => i + n - t)
  | .opt r, s, i => ends r s i ++ [i]
  | .alt a b, s, i => ends a s i ++ ends b s i
  | .cat a b, s, i => (ends a s i).flatMap (fun j => ends b s j)

/-- A search pattern with a single capture group: part before the group,
the group itself, and the part after it. -/
structure SearchPat where
  pre : Re
  cap : Re
  post : Re

/-- First some-result of f over a list, in order. -/
def firstSome : List α → (α → Option β) → Option β
  | [], _ => none
  | a :: l, f => match f a with
    | some b => some b
    | none => firstSome l f

/-- Attempt a pattern match anchored at position i, backtracking through
the pre-group and group alternatives in preference order; returns the
capture-group span of the preferred match. -/
def tryAt (p : SearchPat) (s : List Char) (i : Nat) : Option (Nat × Nat) :=
  firstSome (ends p.pre s i) (fun j =>
    firstSome (ends p.cap s j) (fun k =>
      if (ends p.post s k).isEmpty then none else some (j, k)))

/-- Scan the starting positions left to right. -/
def searchAux (p : SearchPat) (s : List Char) : Nat → Nat → Option (Nat × Nat)
  | 0, _ => none
  | fuel + 1, i =>
    match tryAt p s i with
    | some jk => some jk
    | none => searchAux p s fuel (i + 1)

/-- re.search semantics: leftmost starting position wins, with Python
backtracking preference inside it; result is the group-1 span. -/
def search (p : SearchPat) (s : List Char) : Option (Nat × Nat) :=
  searchAux p s (s.length + 1) 0

/-- The sublist of s from position j (inclusive) to k (exclusive). -/
def slice (s : List Char) (j k : Nat) : List Char := (s.drop j).take (k - j)

/-- Literal regex from a string. -/
def litS (w : String) : Re := Re.lit w.data

/-- Concatenation of a list of regexes. -/
def cats : List Re → Re
  | [] => .eps
  | [r] => r
  | r :: rest => .cat r (cats rest)

/-! ### The five constituency-name patterns (lines 95-101 of pdf_parser.py) -/

/-- Pattern: constituency, ws+, name, colon-ws+, lazy letter-ws group,
terminated by newline or the word election or the word total. -/
def cPat1 : SearchPat :=
  { pre := cats [litS "constituency", .plusG isWsp, litS "name", .plusG isColonWs]
    cap := .plusL isLetterWs
    post := .alt (litS "\n") (.alt (litS "election") (litS "total")) }

/-- Pattern: constituency, colon-ws+, lazy letter-ws group, same terminator. -/
def cPat2 : SearchPat :=
  { pre := cats [litS "constituency", .plusG isColonWs]
    cap := .plusL isLetterWs
    post := .alt (litS "\n") (.alt (litS "election") (litS "total")) }

/-- Pattern: captured group of a letter then greedy letter-ws run, then ws+
and the word constituency. (The leading [A-Z] matches any letter under
re.IGNORECASE.) -/
def cPat3 : SearchPat :=
  { pre := .eps
    cap := .cat (.one isLetter) (.plusG isLetterWs)
    post := .cat (.plusG isWsp) (litS "constituency") }

/-- Pattern: name, colon-ws+, lazy letter-ws group, terminated by newline
or the word total or the word election (terminator order differs from cPat1). -/
def cPat4 : SearchPat :=
  { pre := cats [litS "name", .plusG isColonWs]
    cap := .plusL isLetterWs
    post := .alt (litS "\n") (.alt (litS "total") (litS "election")) }

/-- Pattern: constituency, colon-ws star, captured letter then 3-30
letter-ws chars, terminated by ws-star newline, or ws+ election, or ws+ total. -/
def cPat5 : SearchPat :=
  { pre := cats [litS "constituency", .starG isColonWs]
    cap := .cat (.one isLetter) (.repG isLetterWs 3 30)
    post := .alt (.cat (.starG isWsp) (litS "\n"))
      (.alt (.cat (.plusG isWsp) (litS "election")) (.cat (.plusG isWsp) (litS "total"))) }

/-- The constituency-name pattern list, in source order. -/
def constituency_patterns : List SearchPat := [cPat1, cPat2, cPat3, cPat4, cPat5]

/-! ### The five total-electors patterns (lines 113-119) -/

/-- Digit-comma capture after a label: the shared tail colon-ws+ then group. -/
def numTail : Re := .plusG isColonWs

/-- Pattern: total ws+ with optional (number ws+ of ws+) then electors. -/
def ePat1 : SearchPat :=
  { pre := cats [litS "total", .plusG isWsp,
                 .opt (cats [litS "number", .plusG isWsp, litS "of", .plusG isWsp]),
                 litS "electors", numTail]
    cap := .plusG isDigitComma
    post := .eps }

/-- Pattern: electors, colon-ws+, digit group. -/
def ePat2 : SearchPat :=
  { pre := cats [litS "electors", numTail], cap := .plusG isDigitComma, post := .eps }

/-- Pattern: total ws+ electors, colon-ws+, digit group. -/
def ePat3 : SearchPat :=
  { pre := cats [litS "total", .plusG isWsp, litS "electors", numTail]
    cap := .plusG isDigitComma, post := .eps }

/-- Pattern: registered ws+ voters, colon-ws+, digit group. -/
def ePat4 : SearchPat :=
  { pre := cats [litS "registered", .plusG isWsp, litS "voters", numTail]
    cap := .plusG isDigitComma, post := .eps }

/-- Pattern: total ws+ registered, colon-ws+, digit group. -/
def ePat5 : SearchPat :=
  { pre := cats [litS "total", .plusG isWsp, litS "registered", numTail]
    cap := .plusG isDigitComma, post := .eps }

/-- The total-electors pattern list, in source order. -/
def elector_patterns : List SearchPat := [ePat1, ePat2, ePat3, ePat4, ePat5]

/-! ### The five valid-votes-polled patterns (lines 129-135) -/

/-- Pattern: total ws+ optional (number ws+ of ws+) valid ws+ votes ws+ polled. -/
def vPat1 : SearchPat :=
  { pre := cats [litS "total", .plusG isWsp,
                 .opt (cats [litS "number", .plusG isWsp, litS "of", .plusG isWsp]),
                 litS "valid", .plusG isWsp, litS "votes", .plusG isWsp, litS "polled", numTail]
    cap := .plusG isDigitComma, post := .eps }

/-- Pattern: valid ws+ votes ws+ polled, colon-ws+, digit group. -/
def vPat2 : SearchPat :=
  { pre := cats [litS "valid", .plusG isWsp, litS "votes", .plusG isWsp, litS "polled", numTail]
    cap := .plusG isDigitComma, post := .eps }

/-- Pattern: total ws+ valid ws+ votes, colon-ws+, digit group. -/
def vPat3 : SearchPat :=
  { pre := cats [litS "total", .plusG isWsp, litS "valid", .plusG isWsp, litS "votes", numTail]
    cap := .plusG isDigitComma, post := .eps }

/-- Pattern: votes ws+ polled, colon-ws+, digit group. -/
def vPat4 : SearchPat :=
  { pre := cats [litS "votes", .plusG isWsp, litS "polled", numTail]
    cap := .plusG isDigitComma, post := .eps }

/-- Pattern: total ws+ votes ws+ cast, colon-ws+, digit group. -/
def vPat5 : SearchPat :=
  { pre := cats [litS "total", .plusG isWsp, litS "votes", .plusG isWsp, litS "cast", numTail]
    cap := .plusG isDigitComma, post := .eps }

/-- The valid-votes-polled pattern list, in source order. -/
def valid_votes_patterns : List SearchPat := [vPat1, vPat2, vPat3, vPat4, vPat5]

/-! ### The five NOTA patterns (lines 145-151) -/

/-- Pattern: none ws+ of ws+ the ws+ above, colon-ws+, digit group. -/
def nPat1 : SearchPat :=
  { pre := cats [litS "none", .plusG isWsp, litS "of", .plusG isWsp, litS "the",
                 .plusG isWsp, litS "above", numTail]
    cap := .plusG isDigitComma, post := .eps }

/-- Pattern: nota, colon-ws+, digit group. -/
def nPat2 : SearchPat :=
  { pre := cats [litS "nota", numTail], cap := .plusG isDigitComma, post := .eps }

/-- Pattern: votes ws+ for ws+ optional-quote none of the above
optional-quote, colon-ws+, digit group. -/
def nPat3 : SearchPat :=
  { pre := cats [litS "votes", .plusG isWsp, litS "for", .plusG isWsp,
                 .opt (.one isQuoteCh), litS "none", .plusG isWsp, litS "of", .plusG isWsp,
                 litS "the", .plusG isWsp, litS "above", .opt (.one isQuoteCh), numTail]
    cap := .plusG isDigitComma, post := .eps }

/-- Pattern: optional-quote none of the above optional-quote, colon-ws+,
digit group. -/
def nPat4 : SearchPat :=
  { pre := cats [.opt (.one isQuoteCh), litS "none", .plusG isWsp, litS "of", .plusG isWsp,
                 litS "the", .plusG isWsp, litS "above", .opt (.one isQuoteCh), numTail]
    cap := .plusG isDigitComma, post := .eps }

/-- Pattern: option ws+ nota, colon-ws+, digit group. -/
def nPat5 : SearchPat :=
  { pre := cats [litS "option", .plusG isWsp, litS "nota", numTail]
    cap := .plusG isDigitComma, post := .eps }

/-- The NOTA pattern list, in source order. -/
def nota_patterns : List SearchPat := [nPat1, nPat2, nPat3, nPat4, nPat5]

/-! ### Field extraction loops (extract_data_from_text) -/

/-- True when the second list is a leading segment of the first. -/
def startsWithL : List Char → List Char → Bool
  | _, [] => true
  | [], _ :: _ => false
  | c :: l, d :: w => (c = d) && startsWithL l w

/-- The false-match reject list of line 108. -/
def rejectWords : List (List Char) := ["total".data, "number".data, "election".data]

/-- Validation on line 108: the stripped candidate is kept when longer than
3 characters and its lowercase form starts with none of the reject words. -/
def isValidName (name : List Char) : Bool :=
  decide (3 < name.length) &&
    !(rejectWords.any (fun w => startsWithL (name.map asciiLower) w))

/-- The constituency loop (lines 103-110): first pattern whose match,
stripped, passes validation wins; an invalid match falls through to the
next pattern. -/
def firstValidName (s : List Char) : List SearchPat → Option String
  | [] => none
  | p :: ps =>
    match search p s with
    | some (j, k) =>
      let name := stripWs (slice s j k)
      if isValidName name then some (String.mk name) else firstValidName s ps
    | none => firstValidName s ps

/-- str.replace removing every comma (lines 125, 141, 157). -/
def commaStrip (l : List Char) : List Char := l.filter (fun c => !(c == ','))

/-- The numeric-field loop (lines 121-126, 137-142, 153-158): first pattern
that matches wins; the captured group has its commas removed. -/
def firstNumber (s : List Char) : List SearchPat → Option String
  | [] => none
  | p :: ps =>
    match search p s with
    | some (j, k) => some (String.mk (commaStrip (slice s j k)))
    | none => firstNumber s ps

/-- The record built by extract_data_from_text, with its five dict keys in
insertion order (lines 83-89). -/
structure ExtractionRecord where
  filename : String
  constituency_name : String
  total_electors : String
  valid_votes_polled : String
  nota_votes : String
deriving DecidableEq, Repr

/-- The pattern-matching stage of extract_data_from_text, applied to the
already-normalised text.  A field whose loop finds nothing keeps its
initial empty-string value. -/
def extract_from_clean (s : List Char) (filename : String) : ExtractionRecord :=
  { filename := filename
    constituency_name := (firstValidName s constituency_patterns).getD ""
    total_electors := (firstNumber s elector_patterns).getD ""
    valid_votes_polled := (firstNumber s valid_votes_patterns).getD ""
    nota_votes := (firstNumber s nota_patterns).getD "" }

/-- extract_data_from_text (lines 81-160): normalise whitespace, then run
the four field loops. -/
def extract_data_from_text (text filename : String) : ExtractionRecord :=
  extract_from_clean (clean_list text) filename

/-! ### Batch orchestration (process_all_pdfs, lines 162-193) -/

/-- f.lower().endswith of the PDF extension. -/
def hasPdfExt (f : String) : Bool :=
  startsWithL (f.data.map asciiLower).reverse (".pdf".data.reverse)

/-- process_all_pdfs: `none` models a missing PDF folder; `some files`
models os.listdir order.  Files are filtered by extension, then each is
fetched through getText; a file with empty text (including a failed fetch,
which extract_text_from_pdf reports as the empty string) is skipped with
no placeholder record. -/
def process_all_pdfs (folder : Option (List String)) (getText : String → String) :
    List ExtractionRecord :=
  match folder with
  | none => []
  | some files =>
    let pdf_files := files.filter hasPdfExt
    pdf_files.filterMap (fun f =>
      let text := getText f
      if text = "" then none else some (extract_data_from_text text f))

/-! ### Export (save_to_excel, lines 195-221) -/

/-- Observable outcome of save_to_excel: whether the output folder was
created, the written table, and whether the no-data warning was printed. -/
structure SaveResult where
  madeDir : Bool
  table : Option (List String × List (List String))
  warned : Bool
deriving DecidableEq, Repr

/-- The fixed header row assigned positionally on lines 208-214. -/
def headerRow : List String :=
  ["Filename", "Constituency Name", "Total Electors", "Valid Votes Polled", "NOTA Votes"]

/-- One spreadsheet row per record: the record's dict values in insertion
order, which is the column order pandas derives from the dict keys. -/
def rowOf (r : ExtractionRecord) : List String :=
  [r.filename, r.constituency_name, r.total_electors, r.valid_votes_polled, r.nota_votes]

/-- save_to_excel: warn and stop on an empty record list (before creating
the output folder); otherwise create the folder and write header plus one
row per record. -/
def save_to_excel (data : List ExtractionRecord) : SaveResult :=
  if data.isEmpty then { madeDir := false, table := none, warned := true }
  else { madeDir := true, table := some (headerRow, data.map rowOf), warned := false }

/-! ### Specification predicates used by the theorems -/

/-- No two adjacent characters are both spaces. -/
def noDoubleSpace : List Char → Bool
  | [] => true
  | [_] => true
  | a :: b :: t => !(a == ' ' && b == ' ') && noDoubleSpace (b :: t)

/-- Boolean holds-for-the-value-if-any on an Option. -/
def optAll (p : α → Bool) : Option α → Bool
  | none => true
  | some a => p a

/-! ### Lemmas about the search engine -/

theorem firstSome_eq_some {α β : Type} {l : List α} {f : α → Option β} {b : β}
    (h : firstSome l f = some b) : ∃ a ∈ l, f a = some b := by
  induction l with
  | nil => simp [firstSome] at h
  | cons a t ih =>
    cases hfa : f a with
    | some b2 =>
      simp [firstSome, hfa] at h
      exact ⟨a, List.mem_cons_self a t, by rw [hfa, h]⟩
    | none =>
      simp [firstSome, hfa] at h
      obtain ⟨x, hx, hfx⟩ := ih h
      exact ⟨x, List.mem_cons_of_mem a hx, hfx⟩

theorem tryAt_eq_some {p : SearchPat} {s : List Char} {i j k : Nat}
    (h : tryAt p s i = some (j, k)) : j ∈ ends p.pre s i ∧ k ∈ ends p.cap s j := by
  obtain ⟨j2, hj2, h2⟩ := firstSome_eq_some h
  obtain ⟨k2, hk2, h3⟩ := firstSome_eq_some h2
  by_cases he : (ends p.post s k2).isEmpty
  · simp [he] at h3
  · simp [he] at h3
    obtain ⟨rfl, rfl⟩ := h3
    exact ⟨hj2, hk2⟩

theorem searchAux_eq_some {p : SearchPat} {s : List Char} {j k : Nat} :
    ∀ {fuel i : Nat}, searchAux p s fuel i = some (j, k) →
      ∃ i0, tryAt p s i0 = some (j, k) := by
  intro fuel
  induction fuel with
  | zero => intro i h; simp [searchAux] at h
  | succ n ih =>
    intro i h
    cases ht : tryAt p s i with
    | some jk =>
      simp [searchAux, ht] at h
      exact ⟨i, by rw [ht, h]⟩
    | none =>
      simp [searchAux, ht] at h
      exact ih h

theorem search_cap_mem {p : SearchPat} {s : List Char} {j k : Nat}
    (h : search p s = some (j, k)) : k ∈ ends p.cap s j := by
  obtain ⟨i0, h0⟩ := searchAux_eq_some h
  exact (tryAt_eq_some h0).2

theorem mem_ends_plusG {q : Char → Bool} {s : List Char} {i k : Nat}
    (h : k ∈ ends (Re.plusG q) s i) : i < k ∧ k - i ≤ runLen q (s.drop i) := by
  simp [ends] at h
  obtain ⟨t, ht, hk⟩ := h
  omega

theorem all_of_take_runLen {q : Char → Bool} :
    ∀ (l : List Char) (n : Nat), n ≤ runLen q l → ∀ c ∈ l.take n, q c = true := by
  intro l
  induction l with
  | nil => intro n _ c hc; simp at hc
  | cons a t ih =>
    intro n hn c hc
    cases hq : q a with
    | false =>
      simp [runLen, hq] at hn
      subst hn
      simp at hc
    | true =>
      simp [runLen, hq] at hn
      cases n with
      | zero => simp at hc
      | succ m =>
        simp [List.take_succ_cons] at hc
        rcases hc with rfl | hc
        · exact hq
        · exact ih m (by omega) c hc

theorem slice_all_of_cap_plusG {p : SearchPat} {q : Char → Bool} {s : List Char} {j k : Nat}
    (hcap : p.cap = Re.plusG q) (h : search p s = some (j, k)) :
    ∀ c ∈ slice s j k, q c = true := by
  have hk := search_cap_mem h
  rw [hcap] at hk
  have hb := mem_ends_plusG hk
  intro c hc
  rw [slice] at hc
  exact all_of_take_runLen (s.drop j) (k - j) hb.2 c hc

theorem isDigit_of_isDigitComma {c : Char} (h1 : isDigitComma c = true)
    (h2 : (c == ',') = false) : c.isDigit = true := by
  simp [isDigitComma, h2] at h1
  exact h1

theorem firstNumber_all_digits {s : List Char} :
    ∀ {ps : List SearchPat} {v : String},
      (∀ p ∈ ps, p.cap = Re.plusG isDigitComma) →
      firstNumber s ps = some v → v.data.all Char.isDigit = true := by
  intro ps
  induction ps with
  | nil => intro v _ h; simp [firstNumber] at h
  | cons p t ih =>
    intro v hc h
    cases hs : search p s with
    | none =>
      simp [firstNumber, hs] at h
      exact ih (fun q hq => hc q (List.mem_cons_of_mem p hq)) h
    | some jk =>
      obtain ⟨j, k⟩ := jk
      simp [firstNumber, hs] at h
      rw [List.all_eq_true]
      intro c hcm
      rw [← h] at hcm
      have hcm2 : c ∈ commaStrip (slice s j k) := hcm
      rw [commaStrip, List.mem_filter] at hcm2
      have hd := slice_all_of_cap_plusG (hc p (List.mem_cons_self p t)) hs c hcm2.1
      exact isDigit_of_isDigitComma hd (by
        cases hcc : (c == ',') with
        | false => rfl
        | true => rw [hcc] at hcm2; simp at hcm2)

/-! ### Claim theorems -/

/-- C1: extract_data_from_text always returns a record with exactly the
five fields filename, constituency_name, total_electors,
valid_votes_polled and nota_votes; every field whose pattern loop produces
no valid match is the empty string (never absent or null); the function is
total, so it never raises. -/
theorem extract_all_fields_empty_when_unmatched (text fn : String)
    (h1 : firstValidName (clean_list text) constituency_patterns = none)
    (h2 : firstNumber (clean_list text) elector_patterns = none)
    (h3 : firstNumber (clean_list text) valid_votes_patterns = none)
    (h4 : firstNumber (clean_list text) nota_patterns = none) :
    extract_data_from_text text fn =
      { filename := fn, constituency_name := "", total_electors := ""
        valid_votes_polled := "", nota_votes := "" } := by
  simp only [extract_data_from_text, extract_from_clean, h1, h2, h3, h4, Option.getD_none]

/-- Witness for C1 at the label-free input text "hello world": no pattern
loop matches and all four extracted fields are empty. -/
theorem extract_all_fields_empty_when_unmatched_witness :
    firstValidName (clean_list "hello world") constituency_patterns = none ∧
    firstNumber (clean_list "hello world") elector_patterns = none ∧
    firstNumber (clean_list "hello world") valid_votes_patterns = none ∧
    firstNumber (clean_list "hello world") nota_patterns = none ∧
    extract_data_from_text "hello world" "f.pdf" =
      { filename := "f.pdf", constituency_name := "", total_electors := ""
        valid_votes_polled := "", nota_votes := "" } :=
  ⟨by decide, by decide, by decide, by decide,
    extract_all_fields_empty_when_unmatched "hello world" "f.pdf"
      (by decide) (by decide) (by decide) (by decide)⟩

/-- C2: the end-to-end scenario of the spec.  On the four-line report text
the extractor returns constituency_name "Example East", total_electors
"45678", valid_votes_polled "38234" and nota_votes "1234". -/
theorem extract_end_to_end_example :
    extract_data_from_text
      "Constituency Name: Example East\nTotal number of electors: 45,678\nTotal number of valid votes polled: 38,234\nTotal number of votes for \x27None of the Above\x27: 1,234"
      "file.pdf" =
      { filename := "file.pdf", constituency_name := "Example East"
        total_electors := "45678", valid_votes_polled := "38234"
        nota_votes := "1234" } := by decide

/-- C3: within a field pattern rules are evaluated strictly in listed order
and evaluation stops at the first rule that matches (and, for the
constituency field, passes validation): whenever the first rule matches
with a valid result, that result is returned, whatever any later rule
would produce; for the numeric fields the first match wins unconditionally. -/
theorem first_matching_rule_wins (s : List Char) (p q : SearchPat)
    (ps qs : List SearchPat) (j k j2 k2 : Nat)
    (h1 : search p s = some (j, k))
    (hv : isValidName (stripWs (slice s j k)) = true)
    (h2 : search q s = some (j2, k2)) :
    firstValidName s (p :: ps) = some (String.mk (stripWs (slice s j k))) ∧
    firstNumber s (q :: qs) = some (String.mk (commaStrip (slice s j2 k2))) := by
  constructor
  · simp [firstValidName, h1, hv]
  · simp [firstNumber, h2]

/-- Witness for C3 on a text matched by both the first constituency rule
(capturing Alpha Bravo) and the third rule (which alone would capture West
Side): the first rule's value is the one returned.  Likewise the first
elector rule wins. -/
theorem first_matching_rule_wins_witness :
    search cPat1 (clean_list "Constituency Name: Alpha Bravo Total electors: 99 West Side constituency") = some (19, 31) ∧
    isValidName (stripWs (slice (clean_list "Constituency Name: Alpha Bravo Total electors: 99 West Side constituency") 19 31)) = true ∧
    search ePat1 (clean_list "Constituency Name: Alpha Bravo Total electors: 99 West Side constituency") = some (47, 49) ∧
    firstValidName (clean_list "Constituency Name: Alpha Bravo Total electors: 99 West Side constituency") [cPat3] = some "West Side" ∧
    firstValidName (clean_list "Constituency Name: Alpha Bravo Total electors: 99 West Side constituency") (cPat1 :: [cPat2, cPat3, cPat4, cPat5]) = some "Alpha Bravo" ∧
    firstNumber (clean_list "Constituency Name: Alpha Bravo Total electors: 99 West Side constituency") (ePat1 :: [ePat2, ePat3, ePat4, ePat5]) = some "99" := by
  have h := first_matching_rule_wins
    (clean_list "Constituency Name: Alpha Bravo Total electors: 99 West Side constituency")
    cPat1 ePat1 [cPat2, cPat3, cPat4, cPat5] [ePat2, ePat3, ePat4, ePat5]
    19 31 47 49 (by decide) (by decide) (by decide)
  refine ⟨by decide, by decide, by decide, by decide, ?_, ?_⟩
  · rw [h.1]; decide
  · rw [h.2]; decide

/-- C4: a constituency candidate captured by a rule is rejected, and the
next rule tried, when its stripped form has length at most 3 or begins
(case-insensitively) with total, number or election; and when no rule
remains the field stays empty. -/
theorem reject_listed_candidate_tries_next_rule (s : List Char) (p : SearchPat)
    (ps : List SearchPat) (j k : Nat)
    (h : search p s = some (j, k))
    (hrej : (stripWs (slice s j k)).length ≤ 3 ∨
      rejectWords.any
        (fun w => startsWithL ((stripWs (slice s j k)).map asciiLower) w) = true) :
    firstValidName s (p :: ps) = firstValidName s ps ∧
    firstValidName s ([] : List SearchPat) = none := by
  have hbad : isValidName (stripWs (slice s j k)) = false := by
    rcases hrej with hlen | hpre
    · simp [isValidName]
      intro h3
      omega
    · simp [isValidName, hpre]
  constructor
  · simp [firstValidName, h, hbad]
  · rfl

/-- Witness for C4: on the text Constituency Name: Ab total 5 the first
rule captures the span Ab (length 2, at most 3), so the loop moves on to
the remaining rules, none of which yields a valid candidate, and the
constituency field stays empty. -/
theorem reject_listed_candidate_tries_next_rule_witness :
    search cPat1 (clean_list "Constituency Name: Ab total 5") = some (19, 22) ∧
    ((stripWs (slice (clean_list "Constituency Name: Ab total 5") 19 22)).length ≤ 3 ∨
      rejectWords.any
        (fun w => startsWithL
          ((stripWs (slice (clean_list "Constituency Name: Ab total 5") 19 22)).map asciiLower) w) = true) ∧
    firstValidName (clean_list "Constituency Name: Ab total 5")
      (cPat1 :: [cPat2, cPat3, cPat4, cPat5]) =
      firstValidName (clean_list "Constituency Name: Ab total 5") [cPat2, cPat3, cPat4, cPat5] ∧
    firstValidName (clean_list "Constituency Name: Ab total 5") [cPat2, cPat3, cPat4, cPat5] = none ∧
    (extract_data_from_text "Constituency Name: Ab total 5" "f.pdf").constituency_name = "" := by
  have h := reject_listed_candidate_tries_next_rule
    (clean_list "Constituency Name: Ab total 5") cPat1 [cPat2, cPat3, cPat4, cPat5]
    19 22 (by decide) (Or.inl (by decide))
  exact ⟨by decide, Or.inl (by decide), h.1, by decide, by decide⟩

/-- Helper for C5: every pattern in the three numeric pattern lists
captures with the digit-comma class. -/
theorem numeric_caps_are_digitComma :
    (∀ p ∈ elector_patterns, p.cap = Re.plusG isDigitComma) ∧
    (∀ p ∈ valid_votes_patterns, p.cap = Re.plusG isDigitComma) ∧
    (∀ p ∈ nota_patterns, p.cap = Re.plusG isDigitComma) := by
  refine ⟨?_, ?_, ?_⟩ <;>
    · intro p hp
      simp [elector_patterns, valid_votes_patterns, nota_patterns] at hp
      rcases hp with rfl | rfl | rfl | rfl | rfl <;> rfl

/-- C5: every extracted numeric field of every record consists of digits
only — the captured span can contain only digits and commas, and every
comma is removed; removing the commas from such a span keeps exactly its
digits in their original order. -/
theorem numeric_fields_are_digit_strings (text fn : String) :
    (extract_data_from_text text fn).total_electors.data.all Char.isDigit = true ∧
    (extract_data_from_text text fn).valid_votes_polled.data.all Char.isDigit = true ∧
    (extract_data_from_text text fn).nota_votes.data.all Char.isDigit = true ∧
    (∀ g : List Char, g.all isDigitComma = true →
      commaStrip g = g.filter Char.isDigit) := by
  have hfield : ∀ (ps : List SearchPat),
      (∀ p ∈ ps, p.cap = Re.plusG isDigitComma) →
      ((firstNumber (clean_list text) ps).getD "").data.all Char.isDigit = true := by
    intro ps hps
    cases hv : firstNumber (clean_list text) ps with
    | none => rfl
    | some v => exact firstNumber_all_digits hps hv
  refine ⟨hfield elector_patterns numeric_caps_are_digitComma.1,
          hfield valid_votes_patterns numeric_caps_are_digitComma.2.1,
          hfield nota_patterns numeric_caps_are_digitComma.2.2, ?_⟩
  intro g hg
  induction g with
  | nil => rfl
  | cons c t ih =>
    rw [List.all_cons, Bool.and_eq_true] at hg
    have ht := ih hg.2
    rw [commaStrip, List.filter_cons, List.filter_cons]
    cases hcc : (c == ',') with
    | true =>
      have hc : c = ',' := by simpa using hcc
      simp [hcc, hc]
      rw [commaStrip] at ht
      exact ht
    | false =>
      have hd : c.isDigit = true := isDigit_of_isDigitComma hg.1 hcc
      simp [hcc, hd]
      rw [commaStrip] at ht
      exact ht

/-- Witness for C5 at the grouped digit span 45,678: all its characters
are digits or commas, and comma removal yields its digits 45678 in order. -/
theorem numeric_fields_are_digit_strings_witness :
    "45,678".data.all isDigitComma = true ∧
    commaStrip "45,678".data = "45,678".data.filter Char.isDigit ∧
    commaStrip "45,678".data = "45678".data ∧
    (extract_data_from_text "Total number of electors: 45,678" "f.pdf").total_electors = "45678" :=
  ⟨by decide,
    (numeric_fields_are_digit_strings "Total number of electors: 45,678" "f.pdf").2.2.2
      "45,678".data (by decide),
    by decide, by decide⟩

/-- Helper for C6: when every file in a list yields non-empty text, the
per-file step of process_all_pdfs appends exactly one record per file. -/
theorem filterMap_step_eq_map (getText : String → String) :
    ∀ l : List String, (∀ f ∈ l, getText f ≠ "") →
      (l.filterMap (fun f =>
        if getText f = "" then none
        else some (extract_data_from_text (getText f) f))) =
      l.map (fun f => extract_data_from_text (getText f) f) := by
  intro l
  induction l with
  | nil => intro _; rfl
  | cons a t ih =>
    intro hl
    rw [List.filterMap_cons, List.map_cons]
    have ha : getText a ≠ "" := hl a (List.mem_cons_self a t)
    simp only [if_neg ha]
    rw [ih (fun f hf => hl f (List.mem_cons_of_mem a hf))]

/-- C6: process_all_pdfs considers exactly the files whose name ends
case-insensitively in the PDF extension, in enumeration order; it returns
no records when the folder is missing or no file matches; when every
matching file yields non-empty text there is exactly one record per
matching file, in order; and a file whose text is empty (a failed fetch)
is skipped with no placeholder record, so it never aborts the batch. -/
theorem process_all_pdfs_batch_behaviour (getText : String → String) :
    process_all_pdfs none getText = [] ∧
    (∀ files : List String, files.filter hasPdfExt = [] →
      process_all_pdfs (some files) getText = []) ∧
    (∀ files : List String,
      (∀ f ∈ files, hasPdfExt f = true → getText f ≠ "") →
      process_all_pdfs (some files) getText =
        (files.filter hasPdfExt).map (fun f => extract_data_from_text (getText f) f)) ∧
    (∀ (l1 l2 : List String) (f0 : String), getText f0 = "" →
      process_all_pdfs (some (l1 ++ f0 :: l2)) getText =
        process_all_pdfs (some (l1 ++ l2)) getText) := by
  refine ⟨rfl, ?_, ?_, ?_⟩
  · intro files hf
    simp only [process_all_pdfs, hf, List.filterMap_nil]
  · intro files hne
    simp only [process_all_pdfs]
    exact filterMap_step_eq_map getText (files.filter hasPdfExt)
      (fun f hf => hne f (List.mem_of_mem_filter hf) (List.of_mem_filter hf))
  · intro l1 l2 f0 h0
    simp only [process_all_pdfs, List.filter_append, List.filter_cons,
      List.filterMap_append]
    cases hx : hasPdfExt f0 with
    | false => simp
    | true => simp [List.filterMap_cons, h0]

/-- Witness for C6: a folder with three matching documents (two lowercase
pdf names and one uppercase PDF name) and one non-matching file produces
exactly three records, in enumeration order, and the non-matching file is
ignored. -/
theorem process_all_pdfs_batch_behaviour_witness :
    (∀ f ∈ ["a.pdf", "b.PDF", "notes.txt", "c.pdf"], hasPdfExt f = true →
      (fun f => if f = "a.pdf" then "Total electors: 10"
                else if f = "b.PDF" then "NOTA: 2"
                else if f = "c.pdf" then "x" else "") f ≠ "") ∧
    process_all_pdfs (some ["a.pdf", "b.PDF", "notes.txt", "c.pdf"])
      (fun f => if f = "a.pdf" then "Total electors: 10"
                else if f = "b.PDF" then "NOTA: 2"
                else if f = "c.pdf" then "x" else "") =
      [{ filename := "a.pdf", constituency_name := "", total_electors := "10"
         valid_votes_polled := "", nota_votes := "" },
       { filename := "b.PDF", constituency_name := "", total_electors := ""
         valid_votes_polled := "", nota_votes := "2" },
       { filename := "c.pdf", constituency_name := "", total_electors := ""
         valid_votes_polled := "", nota_votes := "" }] := by
  refine ⟨by decide, ?_⟩
  rw [(process_all_pdfs_batch_behaviour _).2.2.1
    ["a.pdf", "b.PDF", "notes.txt", "c.pdf"] (by decide)]
  decide

/-! ### Lemmas about whitespace normalisation -/

theorem mem_spacePrepend {m : List Char} {c : Char} (h : c ∈ spacePrepend m) :
    c = ' ' ∨ c ∈ m := by
  cases m with
  | nil => simp [spacePrepend] at h; exact Or.inl h
  | cons d t =>
    by_cases hd : d = ' '
    · subst hd
      simp [spacePrepend] at h ⊢
      tauto
    · simp [spacePrepend, hd] at h ⊢
      tauto

theorem collapseWs_ws_is_space :
    ∀ (l : List Char), ∀ c ∈ collapseWs l, isWsp c = true → c = ' ' := by
  intro l
  induction l with
  | nil => intro c hc; simp [collapseWs] at hc
  | cons a t ih =>
    intro c hc hw
    by_cases ha : isWsp a = true
    · rw [collapseWs, if_pos ha] at hc
      rcases mem_spacePrepend hc with h | h
      · exact h
      · exact ih c h hw
    · rw [collapseWs, if_neg ha] at hc
      rcases List.mem_cons.mp hc with rfl | h
      · rw [hw] at ha; exact absurd rfl ha
      · exact ih c h hw

theorem not_space_of_not_wsp {a : Char} (ha : isWsp a = false) : (a == ' ') = false := by
  cases haa : (a == ' ') with
  | false => rfl
  | true =>
    have : a = ' ' := by simpa using haa
    rw [this] at ha
    simp [isWsp] at ha

theorem spacePrepend_noDoubleSpace {m : List Char} (hm : noDoubleSpace m = true)
    (hms : ∀ c ∈ m, isWsp c = true → c = ' ') : noDoubleSpace (spacePrepend m) = true := by
  cases m with
  | nil => rfl
  | cons d t =>
    by_cases hd : d = ' '
    · simpa [spacePrepend, hd] using hm
    · rw [spacePrepend, if_neg hd, noDoubleSpace]
      have : (d == ' ') = false := by simpa using hd
      simp [this, hm]

theorem collapseWs_noDoubleSpace : ∀ l : List Char, noDoubleSpace (collapseWs l) = true := by
  intro l
  induction l with
  | nil => rfl
  | cons a t ih =>
    by_cases ha : isWsp a = true
    · rw [collapseWs, if_pos ha]
      exact spacePrepend_noDoubleSpace ih (collapseWs_ws_is_space t)
    · rw [collapseWs, if_neg ha]
      cases hX : collapseWs t with
      | nil => rfl
      | cons d u =>
        rw [noDoubleSpace]
        rw [hX] at ih
        simp [not_space_of_not_wsp (by simpa using ha), ih]

theorem collapseWs_ne_nil : ∀ {l : List Char}, l ≠ [] → collapseWs l ≠ [] := by
  intro l hl
  cases l with
  | nil => exact absurd rfl hl
  | cons a t =>
    by_cases ha : isWsp a = true
    · rw [collapseWs, if_pos ha]
      cases hX : collapseWs t with
      | nil => simp [spacePrepend]
      | cons d u =>
        rw [spacePrepend]
        by_cases hd : d = ' ' <;> simp [hd]
    · rw [collapseWs, if_neg ha]
      simp

theorem head?_dropWhile_not {p : Char → Bool} :
    ∀ {l : List Char} {c : Char}, (l.dropWhile p).head? = some c → p c = false := by
  intro l
  induction l with
  | nil => intro c h; simp at h
  | cons a t ih =>
    intro c h
    by_cases hpa : p a = true
    · rw [List.dropWhile_cons, if_pos hpa] at h
      exact ih h
    · rw [List.dropWhile_cons, if_neg hpa] at h
      simp at h
      rw [← h]
      simpa using hpa

theorem getLast?_dropWhile_of_ne_nil {p : Char → Bool} :
    ∀ {l : List Char}, l.dropWhile p ≠ [] → (l.dropWhile p).getLast? = l.getLast? := by
  intro l
  induction l with
  | nil => intro h; exact absurd rfl h
  | cons a t ih =>
    intro h
    by_cases hpa : p a = true
    · rw [List.dropWhile_cons, if_pos hpa] at h ⊢
      have ht : t ≠ [] := by
        intro he
        rw [he] at h
        simp at h
      rw [ih h]
      cases t with
      | nil => exact absurd rfl ht
      | cons b u => exact (List.getLast?_cons_cons).symm
    · rw [List.dropWhile_cons, if_neg hpa]

theorem stripWs_head_not_ws {l : List Char} {a : Char}
    (h : (stripWs l).head? = some a) : isWsp a = false := by
  rw [stripWs, List.head?_reverse] at h
  have hne : (l.dropWhile isWsp).reverse.dropWhile isWsp ≠ [] := by
    intro he
    rw [he] at h
    simp at h
  rw [getLast?_dropWhile_of_ne_nil hne, List.getLast?_reverse] at h
  exact head?_dropWhile_not h

theorem stripWs_getLast_not_ws {l : List Char} {a : Char}
    (h : (stripWs l).getLast? = some a) : isWsp a = false := by
  rw [stripWs, List.getLast?_reverse] at h
  exact head?_dropWhile_not h

theorem collapseWs_head_of_not_ws {l : List Char} {a : Char}
    (h : l.head? = some a) (ha : isWsp a = false) :
    (collapseWs l).head? = some a := by
  cases l with
  | nil => simp at h
  | cons b t =>
    simp at h
    rw [← h] at ha ⊢
    rw [collapseWs, if_neg (by simp [ha])]
    rfl

theorem getLast?_cons_of_ne_nil {a : Char} {t : List Char} (h : t ≠ []) :
    (a :: t).getLast? = t.getLast? := by
  cases t with
  | nil => exact absurd rfl h
  | cons b u => exact List.getLast?_cons_cons

theorem collapseWs_getLast_of_not_ws :
    ∀ {l : List Char} {a : Char}, l.getLast? = some a → isWsp a = false →
      (collapseWs l).getLast? = some a := by
  intro l
  induction l with
  | nil => intro a h; simp at h
  | cons b t ih =>
    intro a h ha
    cases t with
    | nil =>
      simp at h
      rw [← h] at ha ⊢
      rw [collapseWs, if_neg (by simp [ha])]
      rfl
    | cons c u =>
      rw [List.getLast?_cons_cons] at h
      have hX := ih h ha
      have hXne : collapseWs (c :: u) ≠ [] := collapseWs_ne_nil (by simp)
      by_cases hb : isWsp b = true
      · rw [collapseWs, if_pos hb]
        cases hx : collapseWs (c :: u) with
        | nil => exact absurd hx hXne
        | cons d v =>
          rw [hx] at hX
          rw [spacePrepend]
          by_cases hd : d = ' '
          · rw [if_pos hd]
            exact hX
          · rw [if_neg hd]
            rw [List.getLast?_cons_cons]
            exact hX
      · rw [collapseWs, if_neg hb]
        rw [getLast?_cons_of_ne_nil hXne]
        exact hX

/-- C7: before any pattern is evaluated the raw text is normalised — every
whitespace run (newlines included) becomes a single space and the ends are
trimmed — and all field patterns are matched against that normalised text:
extract_data_from_text is exactly the pattern stage applied to clean_list,
whose result contains no whitespace other than single interior spaces. -/
theorem extract_matches_on_normalized_text (text fn : String) :
    extract_data_from_text text fn = extract_from_clean (clean_list text) fn ∧
    (clean_list text).all (fun c => !(isWsp c) || (c == ' ')) = true ∧
    noDoubleSpace (clean_list text) = true ∧
    optAll (fun c => !(isWsp c)) (clean_list text).head? = true ∧
    optAll (fun c => !(isWsp c)) (clean_list text).getLast? = true := by
  refine ⟨rfl, ?_, collapseWs_noDoubleSpace _, ?_, ?_⟩
  · rw [List.all_eq_true]
    intro c hc
    by_cases hw : isWsp c = true
    · have hsp := collapseWs_ws_is_space (stripWs text.data) c hc hw
      simp [hsp]
    · simp [hw]
  · cases hh : (clean_list text).head? with
    | none => rfl
    | some c =>
      rw [clean_list] at hh
      cases hs : stripWs text.data with
      | nil => rw [hs] at hh; simp [collapseWs] at hh
      | cons a t =>
        have ha : isWsp a = false := stripWs_head_not_ws (by rw [hs]; rfl)
        have h2 : (collapseWs (stripWs text.data)).head? = some a :=
          collapseWs_head_of_not_ws (by rw [hs]; rfl) ha
        rw [hh] at h2
        have hca : c = a := by
          injection h2
        rw [optAll, hca]
        simp [ha]
  · cases hh : (clean_list text).getLast? with
    | none => rfl
    | some c =>
      have hsne : stripWs text.data ≠ [] := by
        intro he
        rw [clean_list, he] at hh
        simp [collapseWs] at hh
      cases hsl : (stripWs text.data).getLast? with
      | none => exact absurd (List.getLast?_eq_none_iff.mp hsl) hsne
      | some a =>
        have ha := stripWs_getLast_not_ws hsl
        have h2 := collapseWs_getLast_of_not_ws hsl ha
        rw [clean_list] at hh
        rw [hh] at h2
        have hca : c = a := by
          injection h2
        rw [optAll, hca]
        simp [ha]

/-- Helper for C8: a character whose ASCII lowercase form is the newline
character is the newline character itself. -/
theorem eq_newline_of_asciiLower {d : Char} (h : asciiLower d = '\n') : d = '\n' := by
  rw [asciiLower] at h
  cases hf : lowerPairs.find? (fun p => p.1 = d) with
  | none => rw [hf] at h; exact h
  | some p =>
    rw [hf] at h
    simp at h
    have hmem := List.mem_of_find?_eq_some hf
    have hall : ∀ q ∈ lowerPairs, (q.2 == '\n') = false := by decide
    have h2 := hall p hmem
    rw [h] at h2
    simp at h2

/-- C8: the normalised text never contains a newline, so the newline
alternative in the constituency-name terminator patterns can never match;
in particular on the text Constituency Name: Example East — where the
value is followed by neither total nor election and no trailing
constituency form occurs — the constituency field comes back empty. -/
theorem newline_alternative_never_matches :
    (∀ text : String, (clean_list text).all (fun c => !(c == '\n')) = true) ∧
    (∀ (text : String) (i : Nat), ends (Re.lit "\n".data) (clean_list text) i = []) ∧
    (extract_data_from_text "Constituency Name: Example East" "f.pdf").constituency_name = "" := by
  have hno : ∀ (text : String) (d : Char), d ∈ clean_list text → (d == '\n') = false := by
    intro text d hd
    cases hdn : (d == '\n') with
    | false => rfl
    | true =>
      have hdn2 : d = '\n' := by simpa using hdn
      have hw : isWsp d = true := by rw [hdn2]; decide
      have hsp := collapseWs_ws_is_space (stripWs text.data) d hd hw
      rw [hdn2] at hsp
      simp at hsp
  refine ⟨?_, ?_, by decide⟩
  · intro text
    rw [List.all_eq_true]
    intro d hd
    simp [hno text d hd]
  · intro text i
    have hml : matchesLower "\n".data ((clean_list text).drop i) = false := by
      have hdata : "\n".data = ['\n'] := rfl
      rw [hdata]
      cases hdrop : (clean_list text).drop i with
      | nil => rfl
      | cons d t =>
        have hd : d ∈ clean_list text :=
          List.drop_subset i (clean_list text) (by rw [hdrop]; exact List.mem_cons_self d t)
        rw [matchesLower]
        have h1 : asciiLower '\n' = '\n' := by decide
        rw [h1]
        have hne : asciiLower d ≠ '\n' := by
          intro he
          have hdn := eq_newline_of_asciiLower he
          rw [hdn] at hd
          have := hno text '\n' hd
          simp at this
        simp [hne]
    rw [ends, hml]
    rfl

/-- C9: for every non-empty record list the exported table has exactly the
header row Filename, Constituency Name, Total Electors, Valid Votes
Polled, NOTA Votes, in that order, and one row per record whose values are
the record's fields in the fixed order filename, constituency_name,
total_electors, valid_votes_polled, nota_votes — the headers are assigned
positionally over that column order. -/
theorem export_table_shape (records : List ExtractionRecord) (h : records ≠ []) :
    (save_to_excel records).table =
      some (["Filename", "Constituency Name", "Total Electors",
             "Valid Votes Polled", "NOTA Votes"],
            records.map (fun r => [r.filename, r.constituency_name, r.total_electors,
                                   r.valid_votes_polled, r.nota_votes])) ∧
    (records.map rowOf).length = records.length := by
  have hne : records.isEmpty = false := by
    cases records with
    | nil => exact absurd rfl h
    | cons a t => rfl
  constructor
  · rw [save_to_excel, hne]
    rfl
  · exact List.length_map records rowOf

/-- Witness for C9 on a one-record list. -/
theorem export_table_shape_witness :
    ([{ filename := "a.pdf", constituency_name := "North", total_electors := "1"
        valid_votes_polled := "2", nota_votes := "3" }] ≠ ([] : List ExtractionRecord)) ∧
    (save_to_excel
      [{ filename := "a.pdf", constituency_name := "North", total_electors := "1"
         valid_votes_polled := "2", nota_votes := "3" }]).table =
      some (["Filename", "Constituency Name", "Total Electors",
             "Valid Votes Polled", "NOTA Votes"],
            [["a.pdf", "North", "1", "2", "3"]]) :=
  ⟨by decide,
    (export_table_shape
      [{ filename := "a.pdf", constituency_name := "North", total_electors := "1"
         valid_votes_polled := "2", nota_votes := "3" }] (by decide)).1⟩

/-- C10: exporting an empty record list is a no-op apart from the warning:
no table is written, the output folder is not created, only the warning is
emitted, and (the function being total) no exception is raised. -/
theorem export_empty_records_noop :
    save_to_excel [] = { madeDir := false, table := none, warned := true } := rfl

end CivicSight
